import Mathlib

/-!
Verification of the combat, pickup/throw and NPC-lifecycle logic of the
pixelated-disco-brawl repository, against a shallow embedding of the
TypeScript source.

Conventions of the embedding:
* positions and velocities are 3-vectors of rationals; the source compares
  Euclidean distances against constant radii, which is embedded exactly via
  squared distances (distance < r becomes distSq < r ^ 2);
* health, score, damage amounts and times (milliseconds) are integers, as
  all values occurring in the source are integral;
* the per-frame callbacks and setTimeout timers of the source become
  explicit step functions applied to explicit states.
-/

/-- A 3-component rational vector, standing for the THREE.Vector3 and
CANNON.Vec3 values of the source. -/
structure Vec3 where
  x : ℚ
  y : ℚ
  z : ℚ
deriving DecidableEq, Repr

namespace Vec3

/-- Componentwise sum, as THREE.Vector3.add. -/
def add (a b : Vec3) : Vec3 := ⟨a.x + b.x, a.y + b.y, a.z + b.z⟩

/-- Componentwise difference, as THREE.Vector3.subVectors. -/
def sub (a b : Vec3) : Vec3 := ⟨a.x - b.x, a.y - b.y, a.z - b.z⟩

/-- Dot product of two vectors. -/
def dot (a b : Vec3) : ℚ := a.x * b.x + a.y * b.y + a.z * b.z

/-- Squared Euclidean norm; the source compares norms against constant
bounds, which this embedding does on squares. -/
def normSq (a : Vec3) : ℚ := a.x ^ 2 + a.y ^ 2 + a.z ^ 2

/-- Squared distance between two points, embedding
THREE.Vector3.distanceTo composed with a comparison. -/
def distSq (a b : Vec3) : ℚ := normSq (sub b a)

/-- The zero vector. -/
def zero : Vec3 := ⟨0, 0, 0⟩

end Vec3

/-- Rotation of a vector about the y axis; the player mesh quaternion is
always a pure yaw rotation (Controls builds it from Euler (0, yaw, 0)),
so applyQuaternion on it acts as this rotation.  The arguments s and c
stand for the sine and cosine of the yaw angle. -/
def rotY (s c : ℚ) (v : Vec3) : Vec3 :=
  ⟨v.x * c + v.z * s, v.y, -v.x * s + v.z * c⟩

/-- One NPC record as kept in the npcs array of NPCManager: the id is the
name drawn from the NPC_CONFIG.names pool, health starts at 100, visible
mirrors mesh.visible, pos and vel mirror the physics body. -/
structure NPC where
  id : String
  health : ℤ
  visible : Bool
  pos : Vec3
  vel : Vec3
deriving DecidableEq, Repr

/-- The NPC-side game state handled by NPCManager: the npcs array in spawn
order, and the player score accumulated through onScoreUpdate. -/
structure NPCWorld where
  npcs : List NPC
  score : ℤ
deriving DecidableEq, Repr

/-- Update the first list entry satisfying p by f, leaving the rest
unchanged; this is how the source mutates the record returned by
Array.prototype.find on the npcs array. -/
def updateFirst (p : NPC → Bool) (f : NPC → NPC) : List NPC → List NPC
  | [] => []
  | n :: rest => if p n then f n :: rest else n :: updateFirst p f rest

/-- The per-NPC effect of handleNPCDamage in NPCManager.tsx: health is
lowered to max 0 (health - damage), and on defeat (new health at most 0)
the mesh is hidden. -/
def damageNpcRec (d : ℤ) (n : NPC) : NPC :=
  let h := max 0 (n.health - d)
  if h ≤ 0 then { n with health := h, visible := false } else { n with health := h }

/-- handleNPCDamage of NPCManager.tsx: find the first NPC whose id equals
the given id (no liveness or visibility filter), lower its health with a
floor of 0, and if the new health is at most 0 hide its mesh and credit
100 points through onScoreUpdate.  The 5000 ms respawn timer scheduled in
the same branch is modelled by the separate operation respawnFirst. -/
def handleNPCDamage (i : String) (d : ℤ) (w : NPCWorld) : NPCWorld :=
  match w.npcs.find? (fun n => n.id = i) with
  | none => w
  | some n =>
      let h := max 0 (n.health - d)
      { npcs := updateFirst (fun m => m.id = i) (damageNpcRec d) w.npcs,
        score := if h ≤ 0 then w.score + 100 else w.score }

/-- The ten spawn points of NPC_CONFIG.spawnPoints. -/
def spawnPointsL : List Vec3 :=
  [⟨10, 1, 10⟩, ⟨-10, 1, 10⟩, ⟨10, 1, -10⟩, ⟨-10, 1, -10⟩, ⟨5, 1, -8⟩,
   ⟨-5, 1, 8⟩, ⟨-8, 1, -5⟩, ⟨8, 1, 5⟩, ⟨-12, 1, 0⟩, ⟨12, 1, 0⟩]

/-- Spawn point selected by the random index drawn in the respawn timer. -/
def spawnPoint (k : Fin 10) : Vec3 := spawnPointsL.getD k.val Vec3.zero

/-- The body of the 5000 ms respawn setTimeout in handleNPCDamage: the
captured NPC record (the first one matching the id at defeat time) gets
health 100, its body is moved to a random spawn point with zero velocity,
and its mesh is shown again. -/
def respawnReset (k : Fin 10) (m : NPC) : NPC :=
  { m with health := 100, pos := spawnPoint k, vel := Vec3.zero, visible := true }

/-- Apply the respawn reset to the first NPC matching the id. -/
def respawnFirst (i : String) (k : Fin 10) (w : NPCWorld) : NPCWorld :=
  { w with npcs := updateFirst (fun m => m.id = i) (respawnReset k) w.npcs }

section UpdateFirstLemmas

/-- Entries not satisfying the predicate are untouched by updateFirst. -/
theorem updateFirst_of_forall_not (p : NPC → Bool) (f : NPC → NPC) (l : List NPC)
    (h : ∀ n ∈ l, ¬ p n) : updateFirst p f l = l := by
  induction l with
  | nil => rfl
  | cons a t ih =>
      simp only [updateFirst]
      rw [if_neg (by simpa using h a (List.mem_cons_self a t)),
        ih (fun n hn => h n (List.mem_cons_of_mem a hn))]

/-- Searching for a different id after updating the first match of an id:
the search result is unchanged, provided the update preserves ids. -/
theorem find?_updateFirst_ne (i j : String) (f : NPC → NPC) (l : List NPC)
    (hf : ∀ n, (f n).id = n.id) (hij : j ≠ i) :
    (updateFirst (fun m => m.id = i) f l).find? (fun m => m.id = j) =
      l.find? (fun m => m.id = j) := by
  induction l with
  | nil => rfl
  | cons a t ih =>
      by_cases hai : a.id = i
      · have hstep : updateFirst (fun m => m.id = i) f (a :: t) = f a :: t := by
          simp [updateFirst, hai]
        rw [hstep]
        rw [List.find?_cons_of_neg _ (by simp [hf a, hai, Ne.symm hij]),
          List.find?_cons_of_neg _ (by simp [hai, Ne.symm hij])]
      · have hstep : updateFirst (fun m => m.id = i) f (a :: t) =
            a :: updateFirst (fun m => m.id = i) f t := by
          simp [updateFirst, hai]
        rw [hstep]
        by_cases haj : a.id = j
        · rw [List.find?_cons_of_pos _ (by simp [haj]),
            List.find?_cons_of_pos _ (by simp [haj])]
        · rw [List.find?_cons_of_neg _ (by simp [haj]),
            List.find?_cons_of_neg _ (by simp [haj])]
          exact ih

/-- Searching for the updated id after updateFirst rewrites exactly the
found record by f, provided the update preserves ids. -/
theorem find?_updateFirst_eq (i : String) (f : NPC → NPC) (l : List NPC)
    (hf : ∀ n, (f n).id = n.id) :
    (updateFirst (fun m => m.id = i) f l).find? (fun m => m.id = i) =
      (l.find? (fun m => m.id = i)).map f := by
  induction l with
  | nil => rfl
  | cons a t ih =>
      by_cases hai : a.id = i
      · have hstep : updateFirst (fun m => m.id = i) f (a :: t) = f a :: t := by
          simp [updateFirst, hai]
        rw [hstep]
        rw [List.find?_cons_of_pos _ (by simp [hf a, hai]),
          List.find?_cons_of_pos _ (by simp [hai])]
        rfl
      · have hstep : updateFirst (fun m => m.id = i) f (a :: t) =
            a :: updateFirst (fun m => m.id = i) f t := by
          simp [updateFirst, hai]
        rw [hstep]
        rw [List.find?_cons_of_neg _ (by simp [hai]),
          List.find?_cons_of_neg _ (by simp [hai])]
        exact ih

/-- Position-indexed description of updateFirst when the predicate has a
first match: exactly one index is rewritten and every other index is
untouched. -/
theorem updateFirst_get? (p : NPC → Bool) (f : NPC → NPC) (l : List NPC) (n : NPC)
    (hfind : l.find? p = some n) :
    ∃ idx : ℕ, l.get? idx = some n ∧ (updateFirst p f l).get? idx = some (f n) ∧
      ∀ k : ℕ, k ≠ idx → (updateFirst p f l).get? k = l.get? k := by
  induction l with
  | nil => simp at hfind
  | cons a t ih =>
      by_cases ha : p a
      · have hna : n = a := by
          rw [List.find?_cons_of_pos _ ha] at hfind
          exact (Option.some_inj.mp hfind).symm
        have hstep : updateFirst p f (a :: t) = f a :: t := by
          simp [updateFirst, ha]
        refine ⟨0, by simp [hna], by simp [hstep, hna], ?_⟩
        intro k hk
        obtain ⟨k', rfl⟩ := Nat.exists_eq_succ_of_ne_zero hk
        simp [hstep]
      · rw [List.find?_cons_of_neg _ ha] at hfind
        have hstep : updateFirst p f (a :: t) = a :: updateFirst p f t := by
          simp [updateFirst, ha]
        obtain ⟨idx, h1, h2, h3⟩ := ih hfind
        refine ⟨idx + 1, by simpa using h1,
          by simpa [hstep, List.get?_eq_getElem?] using h2, ?_⟩
        intro k hk
        match k with
        | 0 => simp [hstep]
        | k' + 1 =>
            have hne : k' ≠ idx := fun h => hk (by rw [h])
            have := h3 k' hne
            simpa [hstep, List.get?_eq_getElem?] using this

end UpdateFirstLemmas

section HealthOps

/-- One mutation of an Actor health value, as available in the source:
Player.setHealth (which stores the given value directly, both in the
useState revision of Player and in the closure revision where setHealth
assigns the value), and the damage handlers handleDamagePlayer and
handleNPCDamage (which floor the decremented health at 0). -/
inductive HealthOp where
  | set (v : ℤ)
  | damage (a : ℤ)

/-- Apply one health operation.  The set branch is Player.setHealth, a
plain store with no clamping; the damage branch is the
max(0, health - amount) update of handleDamagePlayer and
handleNPCDamage. -/
def applyHealthOp (h : ℤ) : HealthOp → ℤ
  | HealthOp.set v => v
  | HealthOp.damage a => max 0 (h - a)

/-- Fold a sequence of damage amounts through the damage operation. -/
def runDamage (h0 : ℤ) (ops : List ℤ) : ℤ :=
  ops.foldl (fun h a => applyHealthOp h (HealthOp.damage a)) h0

end HealthOps

/-- C1, counterexample.  The claim asserts setHealth(v) stores a value
clamped to [0,100]; but the source setHealth stores its argument as-is,
so one setHealth(150) applied at health 100 yields 150, outside [0,100]. -/
theorem claim1_counterexample :
    applyHealthOp 100 (HealthOp.set 150) = 150 ∧
    ¬ (0 ≤ applyHealthOp 100 (HealthOp.set 150) ∧
        applyHealthOp 100 (HealthOp.set 150) ≤ 100) := by
  decide

/-- C1, amended.  Health stays within [0,100] under any finite sequence of
damage operations with nonnegative amounts starting inside [0,100]
(the damage handlers floor at 0 and never increase health); setHealth,
however, stores its argument unclamped. -/
theorem claim1_amended (ops : List ℤ) (h0 : ℤ)
    (hlo : 0 ≤ h0) (hhi : h0 ≤ 100) (hnn : ∀ a ∈ ops, 0 ≤ a) :
    (0 ≤ runDamage h0 ops ∧ runDamage h0 ops ≤ 100) ∧
    (∀ h v : ℤ, applyHealthOp h (HealthOp.set v) = v) := by
  refine ⟨?_, fun h v => rfl⟩
  induction ops generalizing h0 with
  | nil => exact ⟨hlo, hhi⟩
  | cons a t ih =>
      have ha : 0 ≤ a := hnn a (List.mem_cons_self a t)
      have step_lo : 0 ≤ max 0 (h0 - a) := le_max_left 0 _
      have step_hi : max 0 (h0 - a) ≤ 100 := by
        refine max_le (by norm_num) ?_
        omega
      have hnn' : ∀ b ∈ t, 0 ≤ b := fun b hb => hnn b (List.mem_cons_of_mem a hb)
      exact ih (max 0 (h0 - a)) step_lo step_hi hnn'

/-- C1, witness for the amended theorem at a concrete run: three
NPC-attack damage amounts starting from full health, plus a concrete
unclamped setHealth store. -/
theorem claim1_witness :
    (0 ≤ runDamage 100 [8, 15, 25] ∧ runDamage 100 [8, 15, 25] ≤ 100) ∧
    applyHealthOp 3 (HealthOp.set 7) = 7 :=
  ⟨(claim1_amended [8, 15, 25] 100 (by decide) (by decide) (by decide)).1,
   (claim1_amended [8, 15, 25] 100 (by decide) (by decide) (by decide)).2 3 7⟩

/-- A world with two spawned NPCs that drew the same name Rudy from the
five-name pool; the earlier one is defeated (health 0, hidden, awaiting
its respawn timer), the later one is alive at full health. -/
def dupIdWorld : NPCWorld :=
  { npcs := [⟨"Rudy", 0, false, ⟨0, 1, 0⟩, Vec3.zero⟩,
             ⟨"Rudy", 100, true, ⟨1, 1, 0⟩, Vec3.zero⟩],
    score := 0 }

/-- C10, counterexample.  Damaging id Rudy in dupIdWorld leaves the
earliest live NPC with that id (index 1, health 100) completely
unchanged, while the already-defeated NPC at index 0 is processed again,
crediting another 100 defeat points: the lookup ignores liveness, so the
affected NPC is not the earliest-spawned live match. -/
theorem claim10_counterexample :
    (∃ n ∈ dupIdWorld.npcs, n.id = "Rudy" ∧ 0 < n.health) ∧
    (handleNPCDamage "Rudy" 15 dupIdWorld).npcs.get? 1 =
      some ⟨"Rudy", 100, true, ⟨1, 1, 0⟩, Vec3.zero⟩ ∧
    (handleNPCDamage "Rudy" 15 dupIdWorld).score = 100 := by
  decide

/-- C10, amended.  handleNPCDamage with identifier id affects at most one
NPC: the earliest-spawned NPC whose id equals id, regardless of
liveness; every other position of the npcs array is unchanged.  An
invocation whose id matches no NPC at all leaves all NPC and score state
unchanged. -/
theorem claim10_amended (w : NPCWorld) (i : String) (d : ℤ) :
    (w.npcs.find? (fun m => m.id = i) = none → handleNPCDamage i d w = w) ∧
    (∀ n, w.npcs.find? (fun m => m.id = i) = some n →
      ∃ idx : ℕ, w.npcs.get? idx = some n ∧
        (handleNPCDamage i d w).npcs.get? idx = some (damageNpcRec d n) ∧
        ∀ k : ℕ, k ≠ idx → (handleNPCDamage i d w).npcs.get? k = w.npcs.get? k) := by
  constructor
  · intro hnone
    simp [handleNPCDamage, hnone]
  · intro n hfind
    have hres : (handleNPCDamage i d w).npcs =
        updateFirst (fun m => m.id = i) (damageNpcRec d) w.npcs := by
      simp [handleNPCDamage, hfind]
    obtain ⟨idx, h1, h2, h3⟩ :=
      updateFirst_get? (fun m => m.id = i) (damageNpcRec d) w.npcs n hfind
    exact ⟨idx, h1, by rw [hres]; exact h2, fun k hk => by rw [hres]; exact h3 k hk⟩

/-- C10, witness: an id matching no NPC of a concrete world leaves the
world unchanged. -/
theorem claim10_witness :
    handleNPCDamage "Tadek" 5 dupIdWorld = dupIdWorld :=
  (claim10_amended dupIdWorld "Tadek" 5).1 (by decide)

/-- A world with a single NPC that is defeated and hidden, awaiting its
respawn timer. -/
def defeatedWorld : NPCWorld :=
  { npcs := [⟨"Zakapior", 0, false, ⟨5, 1, -8⟩, Vec3.zero⟩], score := 0 }

/-- C4, counterexample.  The claim asserts a defeated NPC cannot be
damaged until its respawn completes; but handleNPCDamage has no
liveness or visibility guard, so damaging the defeated NPC is processed
again: the defeat branch re-fires and the score changes. -/
theorem claim4_counterexample :
    (defeatedWorld.npcs.get? 0).map NPC.health = some 0 ∧
    (defeatedWorld.npcs.get? 0).map NPC.visible = some false ∧
    (handleNPCDamage "Zakapior" 10 defeatedWorld).score = 100 ∧
    handleNPCDamage "Zakapior" 10 defeatedWorld ≠ defeatedWorld := by
  decide

/-- C4, amended.  When damage defeats an NPC (its decremented health
reaches 0), the NPC record is hidden (invisible) with health 0 and 100
points are credited; when the respawn timer later fires, the same NPC
reappears at a spawn point with health exactly 100, zero velocity and
its mesh visible again.  The source does not make a defeated NPC
un-damageable (see the counterexample) and its update loop does not stop
a defeated NPC from attacking, so those two parts of the claim are
dropped. -/
theorem claim4_amended (w : NPCWorld) (i : String) (d : ℤ) (n : NPC) (k : Fin 10)
    (hfind : w.npcs.find? (fun m => m.id = i) = some n)
    (hdef : n.health - d ≤ 0) :
    (handleNPCDamage i d w).npcs.find? (fun m => m.id = i) =
      some { n with health := 0, visible := false } ∧
    (handleNPCDamage i d w).score = w.score + 100 ∧
    (respawnFirst i k (handleNPCDamage i d w)).npcs.find? (fun m => m.id = i) =
      some { n with health := 100, pos := spawnPoint k, vel := Vec3.zero, visible := true } := by
  have hmax : max 0 (n.health - d) = 0 := max_eq_left hdef
  have hdam : damageNpcRec d n = { n with health := 0, visible := false } := by
    simp [damageNpcRec, hmax]
  have hres : (handleNPCDamage i d w).npcs =
      updateFirst (fun m => m.id = i) (damageNpcRec d) w.npcs := by
    simp [handleNPCDamage, hfind]
  have hid : ∀ m, (damageNpcRec d m).id = m.id := by
    intro m
    simp only [damageNpcRec]
    by_cases h : max 0 (m.health - d) ≤ 0 <;> simp [h]
  have hfind2 : (handleNPCDamage i d w).npcs.find? (fun m => m.id = i) =
      some { n with health := 0, visible := false } := by
    rw [hres, find?_updateFirst_eq i _ _ hid, hfind]
    simp [hdam]
  refine ⟨hfind2, ?_, ?_⟩
  · simp [handleNPCDamage, hfind, hmax]
  · have hr : (respawnFirst i k (handleNPCDamage i d w)).npcs =
        updateFirst (fun m => m.id = i) (respawnReset k) (handleNPCDamage i d w).npcs := rfl
    rw [hr, find?_updateFirst_eq i (respawnReset k) _ (fun m => rfl), hfind2]
    simp [respawnReset]

/-- A world with one live low-health NPC, for the C4 witness. -/
def witness4World : NPCWorld :=
  { npcs := [⟨"Rudy", 10, true, ⟨2, 1, 3⟩, ⟨1, 0, 0⟩⟩], score := 7 }

/-- C4, witness for the amended theorem: a concrete NPC at 10 health takes
15 damage, is defeated and hidden, and its respawn restores health 100,
zero velocity and visibility at the first spawn point. -/
theorem claim4_witness :
    (handleNPCDamage "Rudy" 15 witness4World).npcs.find? (fun m => m.id = "Rudy") =
      some ⟨"Rudy", 0, false, ⟨2, 1, 3⟩, ⟨1, 0, 0⟩⟩ ∧
    (handleNPCDamage "Rudy" 15 witness4World).score = 7 + 100 ∧
    (respawnFirst "Rudy" ⟨0, by decide⟩
        (handleNPCDamage "Rudy" 15 witness4World)).npcs.find? (fun m => m.id = "Rudy") =
      some ⟨"Rudy", 100, true, ⟨10, 1, 10⟩, Vec3.zero⟩ :=
  claim4_amended witness4World "Rudy" 15 ⟨"Rudy", 10, true, ⟨2, 1, 3⟩, ⟨1, 0, 0⟩⟩
    ⟨0, by decide⟩ (by decide) (by decide)

section AttackCooldown

/-- Distance band of one NPC relative to the player, as branched on by
updateNPCs in NPCManager.tsx: beyond followDistance, between
followDistance and attackDistance, or within attackDistance. -/
inductive RangeBand where
  | far
  | approach
  | attack
deriving DecidableEq, Repr

/-- NPC_CONFIG.attackCooldown of NPCManager.tsx, in milliseconds. -/
def ATTACK_COOLDOWN : ℤ := 1500

/-- The per-NPC attack bookkeeping of updateNPCs: the lastAttackTime
stamp and the isAttacking flag. -/
structure AttackTimer where
  lastAttackTime : ℤ
  isAttacking : Bool
deriving DecidableEq, Repr

/-- Input of one updateNPCs tick for one NPC: the current Date.now value,
the distance band, and whether the 1000 ms attack-reset timer fired
before this tick. -/
structure TickInput where
  now : ℤ
  band : RangeBand
  animReset : Bool
deriving DecidableEq, Repr

/-- Application of the pending 1000 ms attack-animation reset timer, when
it fired before this tick: it clears isAttacking and nothing else. -/
def applyAnimReset (st : AttackTimer) (r : Bool) : AttackTimer :=
  if r then { st with isAttacking := false } else st

theorem applyAnimReset_last (st : AttackTimer) (r : Bool) :
    (applyAnimReset st r).lastAttackTime = st.lastAttackTime := by
  cases r <;> rfl

/-- The attack gate of one updateNPCs tick in NPCManager.tsx.  The
approach branch clears isAttacking; the attack branch fires an attack
(returning true) only when not attacking and now - lastAttackTime
exceeds the cooldown, in which case it stamps lastAttackTime := now and
sets isAttacking. -/
def npcAttackGate (st : AttackTimer) (inp : TickInput) : AttackTimer × Bool :=
  let st0 := applyAnimReset st inp.animReset
  match inp.band with
  | RangeBand.far => (st0, false)
  | RangeBand.approach => ({ st0 with isAttacking := false }, false)
  | RangeBand.attack =>
      if ¬ st0.isAttacking ∧ inp.now - st0.lastAttackTime > ATTACK_COOLDOWN then
        ({ lastAttackTime := inp.now, isAttacking := true }, true)
      else (st0, false)

/-- The times at which a run of updateNPCs ticks fires attacks for one
NPC. -/
def fireTimes (st : AttackTimer) : List TickInput → List ℤ
  | [] => []
  | inp :: rest =>
      if (npcAttackGate st inp).2 then
        inp.now :: fireTimes (npcAttackGate st inp).1 rest
      else fireTimes (npcAttackGate st inp).1 rest

/-- Firing the attack gate stamps lastAttackTime with the current time,
and can only happen strictly more than one cooldown after the previous
stamp. -/
theorem npcAttackGate_fired (st : AttackTimer) (inp : TickInput)
    (h : (npcAttackGate st inp).2 = true) :
    (npcAttackGate st inp).1.lastAttackTime = inp.now ∧
      st.lastAttackTime + ATTACK_COOLDOWN < inp.now := by
  rcases inp with ⟨now, band, r⟩
  rcases band with _ | _ | _
  · simp [npcAttackGate] at h
  · simp [npcAttackGate] at h
  · by_cases hc : ¬ (applyAnimReset st r).isAttacking ∧
        now - (applyAnimReset st r).lastAttackTime > ATTACK_COOLDOWN
    · have h2 := hc.2
      rw [applyAnimReset_last] at h2
      simp only [npcAttackGate]
      rw [if_pos hc]
      exact ⟨rfl, by omega⟩
    · exfalso
      simp only [npcAttackGate] at h
      rw [if_neg hc] at h
      simp at h

/-- A tick that does not fire leaves the lastAttackTime stamp unchanged. -/
theorem npcAttackGate_not_fired (st : AttackTimer) (inp : TickInput)
    (h : (npcAttackGate st inp).2 = false) :
    (npcAttackGate st inp).1.lastAttackTime = st.lastAttackTime := by
  rcases inp with ⟨now, band, r⟩
  rcases band with _ | _ | _
  · simp only [npcAttackGate]
    exact applyAnimReset_last st r
  · simp only [npcAttackGate]
    exact applyAnimReset_last st r
  · by_cases hc : ¬ (applyAnimReset st r).isAttacking ∧
        now - (applyAnimReset st r).lastAttackTime > ATTACK_COOLDOWN
    · exfalso
      simp only [npcAttackGate] at h
      rw [if_pos hc] at h
      simp at h
    · simp only [npcAttackGate]
      rw [if_neg hc]
      exact applyAnimReset_last st r

/-- Auxiliary invariant for the cooldown theorem: every fired time lies
strictly more than one cooldown after the lastAttackTime stamp held at
the start of the run, and consecutive fired times are more than one
cooldown apart. -/
theorem fireTimes_spaced (inputs : List TickInput) (st : AttackTimer) :
    (∀ t ∈ fireTimes st inputs, st.lastAttackTime + ATTACK_COOLDOWN < t) ∧
      (fireTimes st inputs).Chain' (fun a b => a + ATTACK_COOLDOWN < b) := by
  induction inputs generalizing st with
  | nil => exact ⟨by simp [fireTimes], by simp [fireTimes]⟩
  | cons inp rest ih =>
      by_cases hf : (npcAttackGate st inp).2 = true
      · have hfire := npcAttackGate_fired st inp hf
        have hrun : fireTimes st (inp :: rest) =
            inp.now :: fireTimes (npcAttackGate st inp).1 rest := by
          simp [fireTimes, hf]
        obtain ⟨ihAll, ihChain⟩ := ih (npcAttackGate st inp).1
        rw [hfire.1] at ihAll
        constructor
        · intro t ht
          rw [hrun] at ht
          rcases List.mem_cons.mp ht with rfl | ht
          · exact hfire.2
          · have := ihAll t ht
            have hcd : (0 : ℤ) ≤ ATTACK_COOLDOWN := by decide
            have := hfire.2
            omega
        · rw [hrun]
          exact List.chain'_cons'.mpr
            ⟨fun b hb => ihAll b (List.mem_of_mem_head? hb), ihChain⟩
      · have hf' : (npcAttackGate st inp).2 = false := by
          simpa using hf
        have hlast := npcAttackGate_not_fired st inp hf'
        have hrun : fireTimes st (inp :: rest) =
            fireTimes (npcAttackGate st inp).1 rest := by
          simp [fireTimes, hf']
        obtain ⟨ihAll, ihChain⟩ := ih (npcAttackGate st inp).1
        rw [hlast] at ihAll
        rw [hrun]
        exact ⟨ihAll, ihChain⟩

/-- C8: between any two consecutive attacks fired by one NPC, at least
attackCooldown milliseconds elapse, for every initial timer state and
every sequence of update ticks (the gate in updateNPCs only fires when
now - lastAttackTime exceeds the cooldown, and stamps lastAttackTime on
firing). -/
theorem claim8_cooldown (st : AttackTimer) (inputs : List TickInput) :
    (fireTimes st inputs).Chain' (fun a b => ATTACK_COOLDOWN ≤ b - a) :=
  ((fireTimes_spaced inputs st).2).imp (fun h => by omega)

end AttackCooldown

section AttackAnimation

/-- The attack-animation state of one Player instance, in the timed
idealisation of the isPunching and isKicking flags: each flag is active
at time t exactly when t is before the recorded expiry.  punch sets its
flag for its 300 ms tween, kick for its 400 ms tween, after which the
animation callback clears the flag. -/
structure AnimState where
  punchUntil : ℤ
  kickUntil : ℤ
deriving DecidableEq, Repr

/-- Player.punch at time t: a no-op while isPunching (the punch tween is
still running), else it starts a 300 ms punch tween.  The guard reads
only the isPunching flag; isKicking is not consulted. -/
def punchAt (t : ℤ) (st : AnimState) : AnimState :=
  if t < st.punchUntil then st else { st with punchUntil := t + 300 }

/-- Player.kick at time t: a no-op while isKicking, else it starts a
400 ms kick tween.  The guard reads only the isKicking flag; isPunching
is not consulted. -/
def kickAt (t : ℤ) (st : AnimState) : AnimState :=
  if t < st.kickUntil then st else { st with kickUntil := t + 400 }

/-- C9, counterexample.  Punch at t = 0, then kick at t = 100: the kick
is not blocked by the running punch (it only checks isKicking), so at
t = 150 both the punch and the kick animations are active, refuting both
the at-most-one-active-animation claim and the claim that kick is a
no-op while any attack is in progress. -/
theorem claim9_counterexample :
    (150 < (kickAt 100 (punchAt 0 ⟨0, 0⟩)).punchUntil ∧
      150 < (kickAt 100 (punchAt 0 ⟨0, 0⟩)).kickUntil) ∧
    kickAt 100 (punchAt 0 ⟨0, 0⟩) ≠ punchAt 0 ⟨0, 0⟩ := by
  decide

/-- C9, amended.  Each attack guards only its own animation: punch is a
no-op exactly while a punch is already running and otherwise locks the
punch flag for 300 ms without touching the kick flag; kick is a no-op
exactly while a kick is already running and otherwise locks the kick
flag for 400 ms without touching the punch flag.  A punch and a kick may
therefore be active simultaneously. -/
theorem claim9_amended (st : AnimState) (t : ℤ) :
    (t < st.punchUntil → punchAt t st = st) ∧
    (st.punchUntil ≤ t →
      (punchAt t st).punchUntil = t + 300 ∧ (punchAt t st).kickUntil = st.kickUntil) ∧
    (t < st.kickUntil → kickAt t st = st) ∧
    (st.kickUntil ≤ t →
      (kickAt t st).kickUntil = t + 400 ∧ (kickAt t st).punchUntil = st.punchUntil) := by
  refine ⟨fun h => ?_, fun h => ?_, fun h => ?_, fun h => ?_⟩
  · simp [punchAt, h]
  · rw [punchAt, if_neg (not_lt.mpr h)]
    exact ⟨rfl, rfl⟩
  · simp [kickAt, h]
  · rw [kickAt, if_neg (not_lt.mpr h)]
    exact ⟨rfl, rfl⟩

/-- C9, witness for the amended theorem: a punch during a running punch
is a no-op, and a punch and a kick from the idle state lock their
respective flags for 300 and 400 ms. -/
theorem claim9_witness :
    punchAt 5 ⟨10, 0⟩ = ⟨10, 0⟩ ∧
    (punchAt 5 ⟨0, 0⟩).punchUntil = 305 ∧
    (kickAt 5 ⟨0, 0⟩).kickUntil = 405 :=
  ⟨(claim9_amended ⟨10, 0⟩ 5).1 (by decide),
   ((claim9_amended ⟨0, 0⟩ 5).2.1 (by decide)).1,
   ((claim9_amended ⟨0, 0⟩ 5).2.2.2 (by decide)).1⟩

end AttackAnimation


section Melee

/-- Damage-id chain that connects a combat hit to the NPC state: the
onDamageNPC handler of Scene (in Environment.tsx) calls the registered
damageNpcFunction, which is handleNPCDamage, and then unconditionally
adds the damage amount to the player score. -/
def onDamageNPC (i : String) (amt : ℤ) (w : NPCWorld) : NPCWorld :=
  let w2 := handleNPCDamage i amt w
  { w2 with score := w2.score + amt }

/-- damageNpcRec never changes the id of the record it updates. -/
theorem damageNpcRec_id (d : ℤ) (m : NPC) : (damageNpcRec d m).id = m.id := by
  simp only [damageNpcRec]
  by_cases h : max 0 (m.health - d) ≤ 0 <;> simp [h]

/-- Modelled from the spec: the player-punch damage constant of the melee
resolver, whose Controls-revision source is not under src (only the
onDamageNPC handler it calls is); the spec fixes punch damage below kick
damage in the 8 to 10 range, and 8 is the punch constant the source uses
elsewhere. -/
def PUNCH_DAMAGE : ℤ := 8

/-- Modelled from the spec: the fixed damage radius of the melee
resolver, matching the hit radius used by the thrown-object resolver in
the source. -/
def DAMAGE_RADIUS : ℚ := 2

/-- The actor-forward unit vector for yaw with sine s and cosine c, as
the source computes by applying the mesh quaternion to (0, 0, -1). -/
def fwd (s c : ℚ) : Vec3 := rotY s c ⟨0, 0, -1⟩

/-- Modelled from the spec: the forward-arc test of the melee resolver
and of pickup selection, a dot-product threshold of one half (roughly
plus or minus 60 degrees); stated exactly on squares, for unit facing
vectors this is cos angle > 1/2. -/
def inFrontArc (s c : ℚ) (rel : Vec3) : Prop :=
  0 < Vec3.dot (fwd s c) rel ∧
    Vec3.normSq (fwd s c) * Vec3.normSq rel < 4 * (Vec3.dot (fwd s c) rel) ^ 2

instance (s c : ℚ) (rel : Vec3) : Decidable (inFrontArc s c rel) := by
  unfold inFrontArc
  infer_instance

/-- Modelled from the spec: target filter of the melee resolver, over
every live, non-defeated NPC of the registry, within the damage radius
and inside the forward arc of the attacker. -/
def meleeQualifies (ppos : Vec3) (s c : ℚ) (n : NPC) : Prop :=
  0 < n.health ∧ Vec3.distSq ppos n.pos < DAMAGE_RADIUS ^ 2 ∧
    inFrontArc s c (Vec3.sub n.pos ppos)

instance (ppos : Vec3) (s c : ℚ) (n : NPC) : Decidable (meleeQualifies ppos s c n) := by
  unfold meleeQualifies
  infer_instance

/-- Modelled from the spec: resolution of one punch swing.  Every
qualifying target is hit once, each hit going through the source
onDamageNPC chain with the punch damage constant. -/
def resolvePunch (ppos : Vec3) (s c : ℚ) (w : NPCWorld) : NPCWorld :=
  let targets := w.npcs.filter (fun n => decide (meleeQualifies ppos s c n))
  targets.foldl (fun w2 t => onDamageNPC t.id PUNCH_DAMAGE w2) w

/-- Damaging id j leaves lookups of any other id i unchanged. -/
theorem onDamageNPC_find_ne (i j : String) (hij : i ≠ j) (amt : ℤ) (w : NPCWorld) :
    (onDamageNPC j amt w).npcs.find? (fun m => m.id = i) =
      w.npcs.find? (fun m => m.id = i) := by
  simp only [onDamageNPC, handleNPCDamage]
  cases hfind : w.npcs.find? (fun n => n.id = j) with
  | none => rfl
  | some n =>
      exact find?_updateFirst_ne j i (damageNpcRec amt) w.npcs
        (damageNpcRec_id amt) hij

/-- Damaging id j rewrites the lookup of j by the damage update. -/
theorem onDamageNPC_find_eq (j : String) (amt : ℤ) (w : NPCWorld) :
    (onDamageNPC j amt w).npcs.find? (fun m => m.id = j) =
      (w.npcs.find? (fun m => m.id = j)).map (damageNpcRec amt) := by
  cases hfind : w.npcs.find? (fun n => n.id = j) with
  | none =>
      simp only [onDamageNPC, handleNPCDamage, hfind]
      rfl
  | some n =>
      simp only [onDamageNPC, handleNPCDamage, hfind]
      rw [find?_updateFirst_eq j (damageNpcRec amt) w.npcs (damageNpcRec_id amt), hfind]

/-- A fold of damage calls whose target ids all differ from i leaves
lookups of i unchanged. -/
theorem foldDamage_find_ne (amt : ℤ) (ts : List NPC) (w : NPCWorld) (i : String)
    (h : ∀ t ∈ ts, t.id ≠ i) :
    ((ts.foldl (fun w2 t => onDamageNPC t.id amt w2) w).npcs.find? (fun m => m.id = i)) =
      w.npcs.find? (fun m => m.id = i) := by
  induction ts generalizing w with
  | nil => rfl
  | cons a t ih =>
      rw [List.foldl_cons]
      rw [ih (onDamageNPC a.id amt w) (fun b hb => h b (List.mem_cons_of_mem a hb))]
      exact onDamageNPC_find_ne i a.id
        (fun he => h a (List.mem_cons_self a t) he.symm) amt w

/-- A fold of damage calls containing exactly one call for id n.id
rewrites the lookup of n.id by one damage update. -/
theorem foldDamage_find_hit (amt : ℤ) (l1 l2 : List NPC) (n : NPC) (w : NPCWorld)
    (h1 : ∀ t ∈ l1, t.id ≠ n.id) (h2 : ∀ t ∈ l2, t.id ≠ n.id) :
    (((l1 ++ n :: l2).foldl (fun w2 t => onDamageNPC t.id amt w2) w).npcs.find?
        (fun m => m.id = n.id)) =
      (w.npcs.find? (fun m => m.id = n.id)).map (damageNpcRec amt) := by
  rw [List.foldl_append, List.foldl_cons]
  rw [foldDamage_find_ne amt l2 _ n.id h2]
  rw [onDamageNPC_find_eq]
  rw [foldDamage_find_ne amt l1 w n.id h1]

/-- In a registry with pairwise-distinct ids, the id lookup of a member
finds exactly that member. -/
theorem find?_of_nodup_mem (l : List NPC) (n : NPC) (hmem : n ∈ l)
    (hnd : (l.map NPC.id).Nodup) : l.find? (fun m => m.id = n.id) = some n := by
  induction l with
  | nil => simp at hmem
  | cons a t ih =>
      rcases List.mem_cons.mp hmem with rfl | hmem'
      · exact List.find?_cons_of_pos _ (by simp)
      · have hnd' : (t.map NPC.id).Nodup := (List.nodup_cons.mp hnd).2
        have hane : ¬ a.id = n.id := by
          intro he
          exact (List.nodup_cons.mp hnd).1
            (he ▸ List.mem_map_of_mem NPC.id hmem')
        rw [List.find?_cons_of_neg _ (by simp [hane])]
        exact ih hmem' hnd'

end Melee

/-- C2: a punch swing against a registry of distinct-id NPCs, with a
live NPC exactly at distance 1.0 directly ahead of the attacker (hence
within the damage radius and the forward arc), lowers that NPC health by
the punch-damage constant exactly once. -/
theorem claim2_punch (ppos : Vec3) (s c : ℚ) (w : NPCWorld) (n : NPC)
    (hnodup : (w.npcs.map NPC.id).Nodup)
    (hmem : n ∈ w.npcs)
    (hlive : 0 < n.health)
    (hhp : PUNCH_DAMAGE < n.health)
    (hpos : n.pos = Vec3.add ppos (fwd s c))
    (hsc : s ^ 2 + c ^ 2 = 1) :
    (resolvePunch ppos s c w).npcs.find? (fun m => m.id = n.id) =
      some { n with health := n.health - PUNCH_DAMAGE } := by
  have hfwd : fwd s c = ⟨-s, 0, -c⟩ := by
    simp only [fwd, rotY, Vec3.mk.injEq]
    exact ⟨by ring, trivial, by ring⟩
  have hrel : Vec3.sub n.pos ppos = fwd s c := by
    rw [hpos, hfwd]
    simp only [Vec3.sub, Vec3.add, Vec3.mk.injEq]
    exact ⟨by ring, by ring, by ring⟩
  have hns : Vec3.normSq (fwd s c) = 1 := by
    rw [hfwd]
    simp only [Vec3.normSq]
    linear_combination hsc
  have hdot : Vec3.dot (fwd s c) (fwd s c) = 1 := by
    rw [hfwd]
    simp only [Vec3.dot]
    linear_combination hsc
  have hq : meleeQualifies ppos s c n := by
    refine ⟨hlive, ?_, ?_⟩
    · rw [Vec3.distSq, hrel, hns]
      norm_num [DAMAGE_RADIUS]
    · rw [inFrontArc, hrel]
      rw [hdot, hns]
      norm_num
  have htmem : n ∈ w.npcs.filter (fun m => decide (meleeQualifies ppos s c m)) :=
    List.mem_filter.mpr ⟨hmem, decide_eq_true hq⟩
  obtain ⟨l1, l2, hsplit⟩ := List.append_of_mem htmem
  have hsub : List.Sublist (w.npcs.filter (fun m => decide (meleeQualifies ppos s c m)))
      w.npcs := List.filter_sublist w.npcs
  have htnd : ((w.npcs.filter (fun m => decide (meleeQualifies ppos s c m))).map NPC.id).Nodup :=
    List.Nodup.sublist (List.Sublist.map NPC.id hsub) hnodup
  rw [hsplit, List.map_append, List.map_cons] at htnd
  obtain ⟨nd1, nd2, hdisj⟩ := List.nodup_append.mp htnd
  have h2 : ∀ t ∈ l2, t.id ≠ n.id := by
    intro t ht he
    exact (List.nodup_cons.mp nd2).1 (he ▸ List.mem_map_of_mem NPC.id ht)
  have h1 : ∀ t ∈ l1, t.id ≠ n.id := by
    intro t ht he
    exact hdisj (List.mem_map_of_mem NPC.id ht)
      (he ▸ List.mem_cons_self n.id (l2.map NPC.id))
  have hd : damageNpcRec PUNCH_DAMAGE n = { n with health := n.health - PUNCH_DAMAGE } := by
    have hp : PUNCH_DAMAGE = (8 : ℤ) := rfl
    rw [hp] at hhp ⊢
    have hmax : max 0 (n.health - 8) = n.health - 8 := max_eq_right (by omega)
    rw [damageNpcRec]
    simp only [hmax]
    rw [if_neg (by omega)]
  simp only [resolvePunch]
  rw [hsplit]
  rw [foldDamage_find_hit PUNCH_DAMAGE l1 l2 n w h1 h2]
  rw [find?_of_nodup_mem w.npcs n hmem hnodup]
  rw [show Option.map (damageNpcRec PUNCH_DAMAGE) (some n) =
      some (damageNpcRec PUNCH_DAMAGE n) from rfl, hd]

/-- A concrete one-NPC world for the C2 witness: the attacker stands at
the origin of the dance floor looking down the negative z axis, the NPC
stands one unit directly ahead at full health. -/
def punchWorld : NPCWorld :=
  { npcs := [⟨"Rudy", 100, true, ⟨0, 1, -1⟩, Vec3.zero⟩], score := 0 }

/-- C2, witness: the concrete punch hits the NPC ahead for exactly the
punch-damage constant, 100 to 92. -/
theorem claim2_witness :
    (resolvePunch ⟨0, 1, 0⟩ 0 1 punchWorld).npcs.find? (fun m => m.id = "Rudy") =
      some ⟨"Rudy", 92, true, ⟨0, 1, -1⟩, Vec3.zero⟩ := by
  have h := claim2_punch ⟨0, 1, 0⟩ 0 1 punchWorld
    ⟨"Rudy", 100, true, ⟨0, 1, -1⟩, Vec3.zero⟩
    (by decide) (by simp [punchWorld]) (by decide) (by decide)
    (by norm_num [Vec3.add, fwd, rotY, Vec3.mk.injEq]) (by norm_num)
  have hval : (100 : ℤ) - PUNCH_DAMAGE = 92 := by norm_num [PUNCH_DAMAGE]
  rw [hval] at h
  exact h

section ThrowCollision

/-- Type tag of an interactable object, as the userData type strings of
the source. -/
inductive ObjType where
  | bottle
  | chair
  | glass
  | table
  | car
deriving DecidableEq, Repr

/-- Damage of a thrown-object hit in checkCollision of Environment.tsx:
15 for a bottle, 25 otherwise. -/
def throwDamage (ty : ObjType) : ℤ := if ty = ObjType.bottle then 15 else 25

/-- The hit radius of checkCollision (distance < 2). -/
def HIT_RADIUS : ℚ := 2

/-- The minimum speed of checkCollision (speed > 5). -/
def MIN_SPEED : ℚ := 5

/-- maxChecks of handleThrow in Environment.tsx: 30 checks of 100 ms. -/
def MAX_CHECKS : ℕ := 30

/-- The per-NPC hit test of checkCollision: within the hit radius and
the object faster than the minimum speed, embedded on squares. -/
def throwHitPred (objPos objVel : Vec3) (n : NPC) : Prop :=
  Vec3.distSq objPos n.pos < HIT_RADIUS ^ 2 ∧ MIN_SPEED ^ 2 < Vec3.normSq objVel

instance (objPos objVel : Vec3) (n : NPC) : Decidable (throwHitPred objPos objVel n) := by
  unfold throwHitPred
  infer_instance

/-- State of one thrown object's post-throw hit-detection loop, plus the
NPC world it acts on. -/
structure ThrowState where
  checksDone : ℕ
  windowOpen : Bool
  world : NPCWorld
deriving DecidableEq, Repr

/-- One checkCollision tick of handleThrow in Environment.tsx: when the
window is open, count the check; past maxChecks the loop stops (window
closes); otherwise the first NPC within the hit radius while the object
exceeds the minimum speed is hit once through damageNpcFunction (that
is, handleNPCDamage) and handleScoreUpdate with the type-dependent
damage, and hitDetected stops the loop; with no hit the next tick is
scheduled.  The object position and velocity are inputs of the tick,
moved by the physics engine between ticks; the model assumes the
damageNpcFunction is registered and every NPC mesh carries its id, as
the source guards require for a hit. -/
def checkCollisionTick (objPos objVel : Vec3) (ty : ObjType) (st : ThrowState) : ThrowState :=
  if st.windowOpen then
    if MAX_CHECKS < st.checksDone + 1 then
      { st with checksDone := st.checksDone + 1, windowOpen := false }
    else
      match st.world.npcs.find? (fun n => decide (throwHitPred objPos objVel n)) with
      | none => { st with checksDone := st.checksDone + 1 }
      | some n =>
          { checksDone := st.checksDone + 1, windowOpen := false,
            world := onDamageNPC n.id (throwDamage ty) st.world }
  else st

/-- The damage update below lethal damage: plain health decrement,
nothing else changes. -/
theorem damageNpcRec_of_lt (d : ℤ) (n : NPC) (hlt : d < n.health) :
    damageNpcRec d n = { n with health := n.health - d } := by
  have hmax : max 0 (n.health - d) = n.health - d := max_eq_right (by omega)
  rw [damageNpcRec]
  simp only [hmax]
  rw [if_neg (by omega)]

/-- Below lethal damage, the damage chain adds exactly the damage amount
to the score (no defeat bonus). -/
theorem onDamageNPC_score_of_lt (i : String) (d : ℤ) (w : NPCWorld) (n : NPC)
    (hfind : w.npcs.find? (fun m => m.id = i) = some n) (hlt : d < n.health) :
    (onDamageNPC i d w).score = w.score + d := by
  simp only [onDamageNPC, handleNPCDamage, hfind]
  rw [if_neg (by omega : ¬ (max 0 (n.health - d) ≤ 0))]

/-- C3: while the throw window is open and not exhausted, a tick whose
scan hits an NPC (the object within the hit radius of it and faster
than the minimum speed) applies the type-dependent damage to that NPC
exactly once, closes the window (one hit per throw), and raises the
thrower score by the damage amount; and once the window is closed every
further tick is a no-op, so the loop has terminated. -/
theorem claim3_throwHit (objPos objVel : Vec3) (ty : ObjType) (st : ThrowState) (n : NPC)
    (hw : st.windowOpen = true)
    (hchecks : st.checksDone + 1 ≤ MAX_CHECKS)
    (hnodup : (st.world.npcs.map NPC.id).Nodup)
    (hfind : st.world.npcs.find? (fun m => decide (throwHitPred objPos objVel m)) = some n)
    (hhp : throwDamage ty < n.health) :
    (checkCollisionTick objPos objVel ty st).windowOpen = false ∧
    (checkCollisionTick objPos objVel ty st).world.npcs.find? (fun m => m.id = n.id) =
      some { n with health := n.health - throwDamage ty } ∧
    (checkCollisionTick objPos objVel ty st).world.score = st.world.score + throwDamage ty ∧
    (∀ p2 v2 ty2 st2, st2.windowOpen = false → checkCollisionTick p2 v2 ty2 st2 = st2) := by
  have hmem : n ∈ st.world.npcs := List.mem_of_find?_eq_some hfind
  have hfid : st.world.npcs.find? (fun m => m.id = n.id) = some n :=
    find?_of_nodup_mem st.world.npcs n hmem hnodup
  have hred : checkCollisionTick objPos objVel ty st =
      { checksDone := st.checksDone + 1, windowOpen := false,
        world := onDamageNPC n.id (throwDamage ty) st.world } := by
    rw [checkCollisionTick, if_pos hw, if_neg (Nat.not_lt.mpr hchecks), hfind]
  refine ⟨by rw [hred], ?_, ?_, ?_⟩
  · rw [hred]
    show (onDamageNPC n.id (throwDamage ty) st.world).npcs.find? (fun m => m.id = n.id) = _
    rw [onDamageNPC_find_eq, hfid]
    rw [show Option.map (damageNpcRec (throwDamage ty)) (some n) =
        some (damageNpcRec (throwDamage ty) n) from rfl]
    rw [damageNpcRec_of_lt (throwDamage ty) n hhp]
  · rw [hred]
    exact onDamageNPC_score_of_lt n.id (throwDamage ty) st.world n hfid hhp
  · intro p2 v2 ty2 st2 h2
    rw [checkCollisionTick]
    rw [if_neg (by rw [h2]; exact Bool.false_ne_true)]

/-- A concrete one-NPC world for the C3 witness. -/
def throwWorld : NPCWorld :=
  { npcs := [⟨"Rudy", 100, true, ⟨0, 1, 1⟩, Vec3.zero⟩], score := 0 }

/-- C3, witness: the thrown bottle one unit from the NPC at speed 10
damages it from 100 to 85, closes the window and credits 15 points. -/
theorem claim3_witness :
    (checkCollisionTick ⟨0, 1, 0⟩ ⟨0, 0, 10⟩ ObjType.bottle
        ⟨0, true, throwWorld⟩).windowOpen = false ∧
    (checkCollisionTick ⟨0, 1, 0⟩ ⟨0, 0, 10⟩ ObjType.bottle
        ⟨0, true, throwWorld⟩).world.npcs.find? (fun m => m.id = "Rudy") =
      some ⟨"Rudy", 85, true, ⟨0, 1, 1⟩, Vec3.zero⟩ ∧
    (checkCollisionTick ⟨0, 1, 0⟩ ⟨0, 0, 10⟩ ObjType.bottle
        ⟨0, true, throwWorld⟩).world.score = 15 := by
  have hp : throwHitPred ⟨0, 1, 0⟩ ⟨0, 0, 10⟩ ⟨"Rudy", 100, true, ⟨0, 1, 1⟩, Vec3.zero⟩ := by
    constructor
    · norm_num [Vec3.distSq, Vec3.sub, Vec3.normSq, HIT_RADIUS]
    · norm_num [Vec3.normSq, MIN_SPEED]
  have h := claim3_throwHit ⟨0, 1, 0⟩ ⟨0, 0, 10⟩ ObjType.bottle
    ⟨0, true, throwWorld⟩ ⟨"Rudy", 100, true, ⟨0, 1, 1⟩, Vec3.zero⟩
    rfl (by decide) (by decide)
    (List.find?_cons_of_pos _ (decide_eq_true hp)) (by decide)
  exact ⟨h.1, h.2.1, h.2.2.1⟩

end ThrowCollision

section PickupThrow

/-- Simulation mode of a physics body: CANNON.Body.DYNAMIC while free or
thrown, CANNON.Body.KINEMATIC while held. -/
inductive BodyMode where
  | dynamic
  | kinematic
deriving DecidableEq, Repr

/-- One interactable object of the scene: the physics body id (unique
per body), the userData type tag, whether the body is static, and the
body position, velocity, angular velocity and simulation mode. -/
structure PickObj where
  id : ℕ
  ty : ObjType
  bodyStatic : Bool
  pos : Vec3
  vel : Vec3
  angVel : Vec3
  mode : BodyMode
deriving DecidableEq, Repr

/-- The pickup-relevant Scene state: the interactable objects, the
heldObject reference (at most one by representation, as in the source),
and the player position and yaw (sine and cosine). -/
structure PickupScene where
  objects : List PickObj
  heldObject : Option ℕ
  playerPos : Vec3
  yawS : ℚ
  yawC : ℚ
deriving DecidableEq, Repr

/-- pickupRange of the nearby-object detection in Environment.tsx. -/
def PICKUP_RANGE : ℚ := 5

/-- Eligibility of an object for a pickup request.  The type filter
(bottle or chair), the non-static test and the range test embed the
nearby-object detection of updatePlayerPosition in Environment.tsx;
the forward-arc test and the not-already-held test are modelled from
the spec, whose Controls-side selection code is not under src. -/
def pickQualifies (st : PickupScene) (o : PickObj) : Prop :=
  o.bodyStatic = false ∧ (o.ty = ObjType.bottle ∨ o.ty = ObjType.chair) ∧
  Vec3.distSq st.playerPos o.pos < PICKUP_RANGE ^ 2 ∧
  inFrontArc st.yawS st.yawC (Vec3.sub o.pos st.playerPos) ∧
  st.heldObject ≠ some o.id

instance (st : PickupScene) (o : PickObj) : Decidable (pickQualifies st o) := by
  unfold pickQualifies
  infer_instance

/-- The hand-anchor position of handlePickup in Environment.tsx: the
offset (0, 1.5, -1) rotated by the player quaternion and translated by
the player position. -/
def handAnchor (st : PickupScene) : Vec3 :=
  Vec3.add st.playerPos (rotY st.yawS st.yawC ⟨0, 3 / 2, -1⟩)

/-- The per-object effect of handlePickup: the body turns kinematic, its
velocity and angular velocity are zeroed, and it is placed at the hand
anchor. -/
def pickUpObj (st : PickupScene) (o : PickObj) : PickObj :=
  { o with
    mode := BodyMode.kinematic
    vel := Vec3.zero
    angVel := Vec3.zero
    pos := handAnchor st }

/-- Update the first object with the given body id (body ids are unique,
so this is the object itself). -/
def updateFirstObj (p : PickObj → Bool) (f : PickObj → PickObj) : List PickObj → List PickObj
  | [] => []
  | n :: rest => if p n then f n :: rest else n :: updateFirstObj p f rest

/-- handlePickup of Environment.tsx: with no object the request is a
silent no-op; with an object it becomes the held object (replacing any
previous reference), turns kinematic with zero velocity and is placed
at the hand anchor. -/
def handlePickup (st : PickupScene) (o : Option PickObj) : PickupScene :=
  match o with
  | none => st
  | some obj =>
      { st with
        heldObject := some obj.id
        objects := updateFirstObj (fun m => m.id = obj.id) (pickUpObj st) st.objects }

/-- Modelled from the spec: the object a pickup request selects, the
first object satisfying the eligibility filter; the Controls-side
selection code is not under src. -/
def selectPickup (st : PickupScene) : Option PickObj :=
  st.objects.find? (fun o => decide (pickQualifies st o))

/-- A full pickup request: select, then apply handlePickup. -/
def pickupRequest (st : PickupScene) : PickupScene :=
  handlePickup st (selectPickup st)

/-- C5: a pickup request succeeds exactly when a qualifying object
exists (bottle or chair, non-static, within pickup range, inside the
forward arc, not already held); on success the selected qualifying
object becomes the held object, and with no qualifying object the
request is a no-op leaving the whole state unchanged. -/
theorem claim5_pickup (st : PickupScene) :
    ((∃ o ∈ st.objects, pickQualifies st o) ↔ (selectPickup st).isSome) ∧
    (∀ o, selectPickup st = some o →
      (pickupRequest st).heldObject = some o.id ∧ o ∈ st.objects ∧ pickQualifies st o) ∧
    (selectPickup st = none → pickupRequest st = st) := by
  refine ⟨?_, ?_, ?_⟩
  · constructor
    · rintro ⟨o, ho, hq⟩
      cases hsel : selectPickup st with
      | some o2 => rfl
      | none =>
          exfalso
          have := List.find?_eq_none.mp hsel o ho
          simp [hq] at this
    · intro hsome
      cases hsel : selectPickup st with
      | none => rw [hsel] at hsome; simp at hsome
      | some o =>
          refine ⟨o, List.mem_of_find?_eq_some hsel, ?_⟩
          have := List.find?_some hsel
          simpa using this
  · intro o hsel
    refine ⟨?_, List.mem_of_find?_eq_some hsel, by simpa using List.find?_some hsel⟩
    rw [pickupRequest, hsel]
    rfl
  · intro hsel
    rw [pickupRequest, hsel]
    rfl

/-- A concrete scene for the C5 witness: the player at the origin facing
down the negative z axis, one free bottle two units ahead. -/
def pickScene : PickupScene :=
  { objects := [⟨1, ObjType.bottle, false, ⟨0, 1, -2⟩, Vec3.zero, Vec3.zero, BodyMode.dynamic⟩],
    heldObject := none, playerPos := ⟨0, 0, 0⟩, yawS := 0, yawC := 1 }

/-- C5, witness: the request on the concrete scene selects and holds the
bottle. -/
theorem claim5_witness :
    (pickupRequest pickScene).heldObject = some 1 := by
  have hq : pickQualifies pickScene
      ⟨1, ObjType.bottle, false, ⟨0, 1, -2⟩, Vec3.zero, Vec3.zero, BodyMode.dynamic⟩ := by
    refine ⟨rfl, Or.inl rfl, ?_, ⟨?_, ?_⟩, by simp [pickScene]⟩
    · norm_num [Vec3.distSq, Vec3.sub, Vec3.normSq, PICKUP_RANGE, pickScene]
    · norm_num [Vec3.dot, Vec3.sub, fwd, rotY, pickScene]
    · norm_num [Vec3.dot, Vec3.normSq, Vec3.sub, fwd, rotY, pickScene]
  have hsel : selectPickup pickScene = some
      ⟨1, ObjType.bottle, false, ⟨0, 1, -2⟩, Vec3.zero, Vec3.zero, BodyMode.dynamic⟩ :=
    List.find?_cons_of_pos _ (decide_eq_true hq)
  exact ((claim5_pickup pickScene).2.1 _ hsel).1

end PickupThrow

section Holding

/-- handleThrow of Environment.tsx, state part: with nothing held a
silent no-op; otherwise the held reference is cleared first and the
thrown body turns dynamic.  The imparted velocity is the normalized
forward-plus-up direction scaled by the throw force, an irrational
value characterized separately by throwVelocityIs. -/
def handleThrowScene (st : PickupScene) : PickupScene :=
  match st.heldObject with
  | none => st
  | some i =>
      { st with
        heldObject := none
        objects := updateFirstObj (fun m => m.id = i)
          (fun m => { m with mode := BodyMode.dynamic }) st.objects }

/-- One pickup-protocol operation of the Scene: a pickup request carrying
the object Controls selected (none when nothing eligible), or a throw. -/
inductive PickupOp where
  | request (o : Option PickObj)
  | throwHeld

/-- Apply one operation. -/
def applyPickupOp (st : PickupScene) : PickupOp → PickupScene
  | PickupOp.request o => handlePickup st o
  | PickupOp.throwHeld => handleThrowScene st

/-- Run a sequence of operations. -/
def runPickupOps (st : PickupScene) (ops : List PickupOp) : PickupScene :=
  ops.foldl applyPickupOp st

/-- Number of objects the actor holds: the heldObject reference is a
single nullable slot, as in the source. -/
def heldCount (st : PickupScene) : ℕ :=
  match st.heldObject with
  | none => 0
  | some _ => 1

/-- The pickup system of unnamed/part_002 (createPickupSystem): one held
body per system. -/
structure PickupSys where
  heldBody : Option ℕ
deriving DecidableEq, Repr

/-- pickup of createPickupSystem: a no-op when already holding. -/
def sysPickup (t : ℕ) (s : PickupSys) : PickupSys :=
  if s.heldBody.isSome then s else { heldBody := some t }

/-- C7: holding is exclusive.  After any sequence of pickup and throw
operations the actor holds at most one object; a pickup request issued
while already holding leaves the actor holding exactly one object (the
new one replaces the old, never two); and in the createPickupSystem
variant a pickup while holding is a no-op.  An object is held by at
most one actor since the scene has a single holder slot. -/
theorem claim7_exclusive (st0 : PickupScene) (ops : List PickupOp) :
    heldCount (runPickupOps st0 ops) ≤ 1 ∧
    (∀ st : PickupScene, ∀ o : PickObj, heldCount (handlePickup st (some o)) = 1) ∧
    (∀ s : PickupSys, ∀ t b : ℕ, s.heldBody = some b → sysPickup t s = s) := by
  refine ⟨?_, ?_, ?_⟩
  · cases h : (runPickupOps st0 ops).heldObject <;> simp [heldCount, h]
  · intro st o
    rfl
  · intro s t b hb
    rw [sysPickup, if_pos (by rw [hb]; rfl)]

end Holding

section ThrowVelocity

/-- Throw strength of handleThrow in Environment.tsx: 30 for a bottle,
20 otherwise. -/
def throwForce (ty : ObjType) : ℤ := if ty = ObjType.bottle then 30 else 20

/-- The throw direction of handleThrow before normalization: the actor
forward vector (0, 0, -1) rotated by the player quaternion, with its y
component then overwritten by the upward bias 0.3. -/
def throwDirRaw (s c : ℚ) : Vec3 := ⟨(fwd s c).x, 3 / 10, (fwd s c).z⟩

/-- The velocity handleThrow imparts: the normalized direction (the raw
direction divided by its Euclidean norm) scaled by the type-dependent
throw force.  The components are irrational in general, so the value is
characterized as a real-valued triple. -/
def throwVelocityIs (s c : ℚ) (ty : ObjType) (v : ℝ × ℝ × ℝ) : Prop :=
  v = (((throwForce ty : ℤ) : ℝ) / Real.sqrt ((Vec3.normSq (throwDirRaw s c) : ℚ) : ℝ) *
        ((throwDirRaw s c).x : ℝ),
      ((throwForce ty : ℤ) : ℝ) / Real.sqrt ((Vec3.normSq (throwDirRaw s c) : ℚ) : ℝ) *
        ((throwDirRaw s c).y : ℝ),
      ((throwForce ty : ℤ) : ℝ) / Real.sqrt ((Vec3.normSq (throwDirRaw s c) : ℚ) : ℝ) *
        ((throwDirRaw s c).z : ℝ))

/-- Searching for the updated id after updateFirstObj rewrites exactly
the found record by f, provided the update preserves ids. -/
theorem find?_updateFirstObj_eq (i : ℕ) (f : PickObj → PickObj) (l : List PickObj)
    (hf : ∀ n, (f n).id = n.id) :
    (updateFirstObj (fun m => m.id = i) f l).find? (fun m => m.id = i) =
      (l.find? (fun m => m.id = i)).map f := by
  induction l with
  | nil => rfl
  | cons a t ih =>
      by_cases hai : a.id = i
      · have hstep : updateFirstObj (fun m => m.id = i) f (a :: t) = f a :: t := by
          simp [updateFirstObj, hai]
        rw [hstep]
        rw [List.find?_cons_of_pos _ (by simp [hf a, hai]),
          List.find?_cons_of_pos _ (by simp [hai])]
        rfl
      · have hstep : updateFirstObj (fun m => m.id = i) f (a :: t) =
            a :: updateFirstObj (fun m => m.id = i) f t := by
          simp [updateFirstObj, hai]
        rw [hstep]
        rw [List.find?_cons_of_neg _ (by simp [hai]),
          List.find?_cons_of_neg _ (by simp [hai])]
        exact ih

/-- C6: throwing the held object clears the holder reference, switches
the thrown body from kinematic to dynamic, and imparts a velocity whose
magnitude is exactly the type-dependent throw force and whose direction
is a positive multiple of the actor-forward-plus-upward-bias vector
(that is, its normalization). -/
theorem claim6_throw (st : PickupScene) (i : ℕ) (o : PickObj) (v : ℝ × ℝ × ℝ)
    (hheld : st.heldObject = some i)
    (hfind : st.objects.find? (fun m => m.id = i) = some o)
    (hsc : st.yawS ^ 2 + st.yawC ^ 2 = 1)
    (hv : throwVelocityIs st.yawS st.yawC o.ty v) :
    (handleThrowScene st).heldObject = none ∧
    (handleThrowScene st).objects.find? (fun m => m.id = i) =
      some { o with mode := BodyMode.dynamic } ∧
    Real.sqrt (v.1 ^ 2 + v.2.1 ^ 2 + v.2.2 ^ 2) = ((throwForce o.ty : ℤ) : ℝ) ∧
    (∃ k : ℝ, 0 < k ∧
      v = (k * ((throwDirRaw st.yawS st.yawC).x : ℝ),
           k * ((throwDirRaw st.yawS st.yawC).y : ℝ),
           k * ((throwDirRaw st.yawS st.yawC).z : ℝ))) := by
  have hred : handleThrowScene st =
      { st with
        heldObject := none
        objects := updateFirstObj (fun m => m.id = i)
          (fun m => { m with mode := BodyMode.dynamic }) st.objects } := by
    rw [handleThrowScene, hheld]
  have hS : Vec3.normSq (throwDirRaw st.yawS st.yawC) = 109 / 100 := by
    have hux : (throwDirRaw st.yawS st.yawC).x = -st.yawS := by
      show (fwd st.yawS st.yawC).x = -st.yawS
      simp only [fwd, rotY]
      ring
    have huz : (throwDirRaw st.yawS st.yawC).z = -st.yawC := by
      show (fwd st.yawS st.yawC).z = -st.yawC
      simp only [fwd, rotY]
      ring
    simp only [Vec3.normSq, hux, huz]
    show (-st.yawS) ^ 2 + (3 / 10 : ℚ) ^ 2 + (-st.yawC) ^ 2 = 109 / 100
    linear_combination hsc
  have hScast : ((Vec3.normSq (throwDirRaw st.yawS st.yawC) : ℚ) : ℝ) = 109 / 100 := by
    rw [hS]
    norm_num
  have hcast : ((Vec3.normSq (throwDirRaw st.yawS st.yawC) : ℚ) : ℝ) =
      (((throwDirRaw st.yawS st.yawC).x : ℝ)) ^ 2 +
      (((throwDirRaw st.yawS st.yawC).y : ℝ)) ^ 2 +
      (((throwDirRaw st.yawS st.yawC).z : ℝ)) ^ 2 := by
    simp only [Vec3.normSq]
    push_cast
    ring
  have hcomp : (((throwDirRaw st.yawS st.yawC).x : ℝ)) ^ 2 +
      (((throwDirRaw st.yawS st.yawC).y : ℝ)) ^ 2 +
      (((throwDirRaw st.yawS st.yawC).z : ℝ)) ^ 2 = 109 / 100 := by
    rw [← hcast, hScast]
  have hsq : (0 : ℝ) < Real.sqrt (109 / 100) :=
    Real.sqrt_pos.mpr (by norm_num)
  have hFz : (0 : ℤ) < throwForce o.ty := by
    rw [throwForce]
    split <;> decide
  have hF : (0 : ℝ) < ((throwForce o.ty : ℤ) : ℝ) := by exact_mod_cast hFz
  rw [throwVelocityIs, hScast] at hv
  subst hv
  have hk : (0 : ℝ) < ((throwForce o.ty : ℤ) : ℝ) / Real.sqrt (109 / 100) :=
    div_pos hF hsq
  refine ⟨by rw [hred], ?_, ?_, ?_⟩
  · rw [hred]
    show (updateFirstObj (fun m => m.id = i)
        (fun m => { m with mode := BodyMode.dynamic }) st.objects).find? (fun m => m.id = i) = _
    rw [find?_updateFirstObj_eq i (fun m => { m with mode := BodyMode.dynamic })
      st.objects (fun m => rfl), hfind]
    rfl
  · show Real.sqrt ((((throwForce o.ty : ℤ) : ℝ) / Real.sqrt (109 / 100) *
        ((throwDirRaw st.yawS st.yawC).x : ℝ)) ^ 2 +
        (((throwForce o.ty : ℤ) : ℝ) / Real.sqrt (109 / 100) *
        ((throwDirRaw st.yawS st.yawC).y : ℝ)) ^ 2 +
        (((throwForce o.ty : ℤ) : ℝ) / Real.sqrt (109 / 100) *
        ((throwDirRaw st.yawS st.yawC).z : ℝ)) ^ 2) = ((throwForce o.ty : ℤ) : ℝ)
    have hsum : (((throwForce o.ty : ℤ) : ℝ) / Real.sqrt (109 / 100) *
        ((throwDirRaw st.yawS st.yawC).x : ℝ)) ^ 2 +
        (((throwForce o.ty : ℤ) : ℝ) / Real.sqrt (109 / 100) *
        ((throwDirRaw st.yawS st.yawC).y : ℝ)) ^ 2 +
        (((throwForce o.ty : ℤ) : ℝ) / Real.sqrt (109 / 100) *
        ((throwDirRaw st.yawS st.yawC).z : ℝ)) ^ 2 =
        (((throwForce o.ty : ℤ) : ℝ) / Real.sqrt (109 / 100)) ^ 2 * (109 / 100) := by
      rw [← hcomp]
      ring
    rw [hsum, Real.sqrt_mul (sq_nonneg _) _, Real.sqrt_sq_eq_abs,
      abs_of_pos hk, div_mul_cancel₀ _ (ne_of_gt hsq)]
  · exact ⟨((throwForce o.ty : ℤ) : ℝ) / Real.sqrt (109 / 100), hk, rfl⟩

/-- A concrete scene for the C6 witness: the player holds the bottle of
body id 1, facing down the negative z axis. -/
def heldScene : PickupScene :=
  { objects := [⟨1, ObjType.bottle, false, ⟨0, 1, -1⟩, Vec3.zero, Vec3.zero, BodyMode.kinematic⟩],
    heldObject := some 1, playerPos := ⟨0, 0, 0⟩, yawS := 0, yawC := 1 }

/-- C6, witness: throwing the held bottle clears the holder, turns the
bottle dynamic, and some velocity satisfying the throw-velocity
characterization has magnitude exactly the bottle throw force. -/
theorem claim6_witness :
    ∃ v : ℝ × ℝ × ℝ, throwVelocityIs 0 1 ObjType.bottle v ∧
      Real.sqrt (v.1 ^ 2 + v.2.1 ^ 2 + v.2.2 ^ 2) = ((throwForce ObjType.bottle : ℤ) : ℝ) ∧
      (handleThrowScene heldScene).heldObject = none ∧
      (handleThrowScene heldScene).objects.find? (fun m => m.id = 1) =
        some ⟨1, ObjType.bottle, false, ⟨0, 1, -1⟩, Vec3.zero, Vec3.zero, BodyMode.dynamic⟩ := by
  have h := claim6_throw heldScene 1
    ⟨1, ObjType.bottle, false, ⟨0, 1, -1⟩, Vec3.zero, Vec3.zero, BodyMode.kinematic⟩
    _ rfl (by decide) (by norm_num [heldScene]) rfl
  exact ⟨_, rfl, h.2.2.1, h.1, h.2.1⟩

end ThrowVelocity
